import Mathlib

/-!
Shallow embedding of the bulk-upsert pipeline of `db/db.go`
(package `db` of siqueiraa/postgres-connect-go), and proofs of the
specification claims about it.

Modelling conventions:
* Go `interface{}` dynamic values become the inductive `GoValue`.
  `float64` and `time.Time` payloads are opaque (`GoFloat`, `GoTime`):
  the code only moves them between representations, never computes
  with them, so only their identity matters.
* Go `map[string]interface{}` records become association lists
  (`Record`); Go map access `row[col]` of a missing key yields the nil
  interface value, modelled by `lookupD` returning `GoValue.nilVal`.
* The external library calls `time.Parse(time.RFC3339, ·)`,
  `time.Time.Format(time.RFC3339)` and `strconv.ParseFloat(·, 64)` are
  parameters of the embedding (`CoercionEnv`): every claim is proved
  for all possible behaviours of those parsers.
* The database itself (pgx `Begin`/`Exec`/`CopyFrom`/`Commit`
  /`Rollback`) is modelled by an error environment `DbEnv` giving each
  step's outcome, and `insertBulkData` transcribes the Go control flow
  (including the `defer tx.Rollback` scope guard) into a `BulkResult`
  trace.
-/

namespace PgConnect

/-- Opaque model of a Go `float64` payload, identified by its bit
pattern; the code under study never computes with floats, it only moves
them between representations. -/
structure GoFloat where
  bits : Nat
deriving DecidableEq, Repr

/-- Opaque model of a Go `time.Time` payload. -/
structure GoTime where
  ticks : Nat
deriving DecidableEq, Repr

/-- Dynamic Go values as they appear in `map[string]interface{}`
records of `db.go`: plain native values, the fixed-width `int32`, and
the tagged `pgtype` wire values whose `Status` field is `Present`
(modelled `present = true`) or not.

For `pgtype.Numeric` the field `conv` models the composite result of
the conversion chain in `formataToNativeType` (`v.Value()` followed by
`decimal.NewFromString` and `Float64()`): `some f` when the chain
succeeds with float `f`, `none` when either library call reports an
error (as it does for a NaN numeric). -/
inductive GoValue where
  | nilVal
  | boolVal (b : Bool)
  | intVal (n : Int)
  | floatVal (f : GoFloat)
  | strVal (s : String)
  | timeVal (t : GoTime)
  | int32Val (n : Int)
  | pgTimestamptz (t : GoTime) (present : Bool)
  | pgFloat8 (f : GoFloat) (present : Bool)
  | pgInt4 (n : Int) (present : Bool)
  | pgBool (b : Bool) (present : Bool)
  | pgText (s : String) (present : Bool)
  | pgNumeric (conv : Option GoFloat) (present : Bool)
deriving DecidableEq, Repr

/-- One `map[string]interface{}` record, as an association list. -/
abbrev Record := List (String × GoValue)

/-- Go map read `row[col]`: the stored value, or the nil interface
value when the key is absent. -/
def lookupD (row : Record) (col : String) : GoValue :=
  match row.find? (fun e => e.1 == col) with
  | some e => e.2
  | none => GoValue.nilVal

/-- Whether the record carries the key at all (Go `_, ok := row[col]`
comma-ok idiom). -/
def hasKey (row : Record) (col : String) : Bool :=
  row.any (fun e => e.1 == col)

/-- Embeds `getColumns`: the keys of the first record, in iteration
order; nil for empty data. -/
def getColumns (data : List Record) : List String :=
  match data with
  | [] => []
  | r :: _ => r.map (fun e => e.1)

/-- Embeds the helper `contains`: membership of a string in a slice. -/
def contains (slice : List String) (item : String) : Bool :=
  slice.any (fun s => s == item)

/-- Embeds `buildUpdateValuesWithExcluded`: walk `columns`, appending
`"col = EXCLUDED.col"` for every column not contained in `primaryKey`,
then join with `", "`. -/
def buildUpdateValuesWithExcluded (columns primaryKey : List String) : String :=
  String.intercalate ", "
    (columns.foldl
      (fun acc col =>
        if !(contains primaryKey col) then acc ++ [col ++ " = EXCLUDED." ++ col]
        else acc)
      [])

/-- Embeds the `fmt.Sprintf` at the merge step of `InsertBulkData`:
the final `INSERT ... SELECT DISTINCT ... ON CONFLICT ... DO UPDATE
SET ...` statement. -/
def insertStmt (table : String) (columns : List String) (tempTable : String)
    (primaryKey : List String) : String :=
  "INSERT INTO " ++ table ++ " (" ++ String.intercalate ", " columns ++
    ") SELECT DISTINCT " ++ String.intercalate ", " columns ++ " FROM " ++ tempTable ++
    " ON CONFLICT (" ++ String.intercalate ", " primaryKey ++ ") DO UPDATE SET " ++
    buildUpdateValuesWithExcluded columns primaryKey

/-- Parameters of the embedding for the external library calls used by
the coercion passes: `time.Parse(time.RFC3339, s)` (`none` models a
parse error), `t.Format(time.RFC3339)`, and
`strconv.ParseFloat(s, 64)` (`none` models `err != nil`). Claims are
proved for every behaviour of these functions. -/
structure CoercionEnv where
  parseRFC3339 : String → Option GoTime
  formatRFC3339 : GoTime → String
  parseFloat : String → Option GoFloat

/-- Per-value body of the loop of `formatTimestamps`: a `time.Time`
becomes its RFC3339 string; a string is replaced by the float it
parses to when `strconv.ParseFloat` succeeds and kept unchanged
otherwise; every other value is kept unchanged. -/
def formatTimestampsValue (env : CoercionEnv) (v : GoValue) : GoValue :=
  match v with
  | GoValue.timeVal t => GoValue.strVal (env.formatRFC3339 t)
  | GoValue.strVal s =>
    match env.parseFloat s with
    | some num => GoValue.floatVal num
    | none => GoValue.strVal s
  | w => w

/-- Embeds `formatTimestamps`: for each record, rebuild it over
`columnOrder`, applying `formatTimestampsValue` to each looked-up
value. -/
def formatTimestamps (env : CoercionEnv) (data : List Record)
    (columnOrder : List String) : List Record :=
  data.map (fun row =>
    columnOrder.map (fun col => (col, formatTimestampsValue env (lookupD row col))))

/-- Outcome of one iteration of the loop body of `formatToBinaryData`:
either the field is kept with a (possibly coerced) value, or the
RFC3339 parse of a string in the `"time"` column failed, the error is
printed, and the field is skipped (`continue`). -/
inductive CoerceResult where
  | keep (v : GoValue)
  | skipLogged
deriving DecidableEq, Repr

/-- Embeds the Go conversion `int32(v)` applied to a (64-bit) `int`:
wrap modulo 2^32 into the signed 32-bit range. -/
def toInt32 (n : Int) : Int :=
  (n + 2 ^ 31) % 2 ^ 32 - 2 ^ 31

/-- Per-value body of the type switch of `formatToBinaryData`, also
keyed by the column name for the `"time"` special case. -/
def formatToBinaryValue (env : CoercionEnv) (col : String) (v : GoValue) : CoerceResult :=
  match v with
  | GoValue.timeVal t => CoerceResult.keep (GoValue.pgTimestamptz t true)
  | GoValue.floatVal f => CoerceResult.keep (GoValue.pgFloat8 f true)
  | GoValue.intVal n => CoerceResult.keep (GoValue.int32Val (toInt32 n))
  | GoValue.boolVal b => CoerceResult.keep (GoValue.pgBool b true)
  | GoValue.strVal s =>
    if col == "time" then
      match env.parseRFC3339 s with
      | some t => CoerceResult.keep (GoValue.pgTimestamptz t true)
      | none => CoerceResult.skipLogged
    else CoerceResult.keep (GoValue.pgText s true)
  | w => CoerceResult.keep w

/-- One record's pass through the loop body of `formatToBinaryData`:
rebuild it over `columnOrder`, keeping only the fields whose coercion
does not hit the logged-skip branch. -/
def formatToBinaryRow (env : CoercionEnv) (columnOrder : List String)
    (row : Record) : Record :=
  columnOrder.filterMap (fun col =>
    match formatToBinaryValue env col (lookupD row col) with
    | CoerceResult.keep w => some (col, w)
    | CoerceResult.skipLogged => none)

/-- Embeds `formatToBinaryData`: apply the per-record pass to every
record. -/
def formatToBinaryData (env : CoercionEnv) (data : List Record)
    (columnOrder : List String) : List Record :=
  data.map (formatToBinaryRow env columnOrder)

/-- Number of `fmt.Printf("Error parsing time: ...")` events emitted
while coercing one record in `formatToBinaryData` (one per field that
hits the skip branch). -/
def binaryRowLogCount (env : CoercionEnv) (columnOrder : List String)
    (row : Record) : Nat :=
  (columnOrder.filter (fun col =>
    formatToBinaryValue env col (lookupD row col) == CoerceResult.skipLogged)).length

/-- Per-value body of the type switch of `formataToNativeType`:
`none` means the loop performs no assignment for the field (a
non-`Present` status, or a failed numeric conversion followed by
`continue`). -/
def nativeValue (v : GoValue) : Option GoValue :=
  match v with
  | GoValue.pgTimestamptz t p => if p then some (GoValue.timeVal t) else none
  | GoValue.pgFloat8 f p => if p then some (GoValue.floatVal f) else none
  | GoValue.pgInt4 n p => if p then some (GoValue.intVal n) else none
  | GoValue.pgBool b p => if p then some (GoValue.boolVal b) else none
  | GoValue.pgText s p => if p then some (GoValue.strVal s) else none
  | GoValue.pgNumeric conv p =>
    if p then
      match conv with
      | some f => some (GoValue.floatVal f)
      | none => none
    else none
  | w => some w

/-- Embeds `formataToNativeType`: rebuild each record from its own
fields, keeping exactly those for which the loop body assigns. -/
def formataToNativeType (data : List Record) : List Record :=
  data.map (fun row =>
    row.filterMap (fun e => (nativeValue e.2).map (fun w => (e.1, w))))

/-- Embeds `mapCopyFromSource`: the pull-based `pgx.CopyFromSource`
cursor over a record slice with an explicit column order. -/
structure MapCopyFromSource where
  data : List Record
  pos : Nat
  columns : List String
deriving DecidableEq, Repr

/-- Embeds `newMapCopyFromSource`: a fresh cursor at position 0. -/
def newMapCopyFromSource (data : List Record) (columnsOrder : List String) :
    MapCopyFromSource :=
  ⟨data, 0, columnsOrder⟩

/-- Embeds `Next`: whether rows remain; reads `pos` without changing
it (in Go, `Next` mutates nothing). -/
def MapCopyFromSource.next (m : MapCopyFromSource) : Bool :=
  decide (m.pos < m.data.length)

/-- Embeds `Values`: `none` models the `io.EOF` return; otherwise the
current row's values in column order, and `pos` advances by one. The
second component is the cursor's state after the call. -/
def MapCopyFromSource.values (m : MapCopyFromSource) :
    Option (List GoValue) × MapCopyFromSource :=
  if m.next then
    (some (m.columns.map (fun col => lookupD (m.data.getD m.pos []) col)),
     ⟨m.data, m.pos + 1, m.columns⟩)
  else (none, m)

/-- Embeds `Err`: always nil. -/
def MapCopyFromSource.errResult (_ : MapCopyFromSource) : Option String :=
  none

/-- State of the cursor after `k` calls to `Values`. -/
def valuesIter (m : MapCopyFromSource) : Nat → MapCopyFromSource
  | 0 => m
  | k + 1 => ((valuesIter m k).values).2

/-- Models a lowercase hexadecimal digit of the `encoding/hex` table
`"0123456789abcdef"` used by `uuid.UUID.String()`. -/
def hexDigitChar (n : Nat) : Char :=
  if n < 10 then Char.ofNat (48 + n) else Char.ofNat (87 + n)

/-- Hex encoding of one byte: two lowercase hex digits. -/
def byteToHex (b : Nat) : List Char :=
  [hexDigitChar (b / 16), hexDigitChar (b % 16)]

/-- Hex encoding of a byte sequence. -/
def bytesToHex (bs : List Nat) : List Char :=
  (bs.map byteToHex).flatten

/-- Models `uuid.UUID.String()` on a 16-byte UUID value: canonical
`xxxxxxxx-xxxx-xxxx-xxxx-xxxxxxxxxxxx` lowercase hex form (byte groups
of sizes 4, 2, 2, 2, 6 separated by hyphens). -/
def uuidString (u : List Nat) : String :=
  String.mk (bytesToHex (u.take 4) ++ ['-'] ++ bytesToHex ((u.drop 4).take 2) ++
    ['-'] ++ bytesToHex ((u.drop 6).take 2) ++ ['-'] ++ bytesToHex ((u.drop 8).take 2) ++
    ['-'] ++ bytesToHex (u.drop 10))

/-- Embeds `strings.ReplaceAll(s, "-", "")` (for a one-character
pattern and empty replacement this removes every hyphen). -/
def replaceAllHyphens (s : String) : String :=
  String.mk (s.data.filter (fun c => c != '-'))

/-- Embeds `generateUniqueTempTableName`; the bytes of the freshly
drawn `uuid.New()` value are the extra parameter `u`. -/
def generateUniqueTempTableName (table : String) (u : List Nat) : String :=
  "temp_" ++ table ++ "_" ++ replaceAllHyphens (uuidString u)

/-- Outcome environment for the five fallible pgx calls made by
`InsertBulkData` (`Pool.Begin`, the `CREATE TEMPORARY TABLE` exec,
`tx.CopyFrom`, the merge-statement exec, `tx.Commit`): `some e` means
that call, when reached, returns error `e`; `none` means it
succeeds. -/
structure DbEnv where
  beginErr : Option String
  createErr : Option String
  copyErr : Option String
  mergeErr : Option String
  commitErr : Option String
deriving DecidableEq, Repr

/-- Statements successfully executed inside the transaction. -/
inductive Stmt where
  | createTemp (tempTable table : String)
  | copyInto (tempTable : String) (cols : List String) (rows : List Record)
  | execSql (sql : String)
deriving DecidableEq, Repr

/-- Observable trace of one `InsertBulkData` call: the returned error,
whether `Pool.Begin` succeeded, the statements executed inside the
transaction, the statements made durable (visible to other sessions —
empty unless `Commit` succeeded), how often `tx.Rollback` was invoked,
and how many of those invocations found the transaction still open
(a rollback of a committed or already-closed transaction returns
`ErrTxClosed` and has no effect). -/
structure BulkResult where
  ret : Option String
  beganTx : Bool
  stmtsInTx : List Stmt
  committedStmts : List Stmt
  rollbackCalls : Nat
  rollbackEffects : Nat
deriving DecidableEq, Repr

/-- Embeds the control flow of `InsertBulkData`: empty-data early
return, coercion passes, `Begin` with `defer tx.Rollback`, staging
`CREATE`, `CopyFrom` of the coerced data, merge exec, `Commit`. The
first failing step's error is returned; the deferred rollback runs on
every exit path after a successful `Begin`, and is effective exactly
when the transaction is still open (it is closed by a successful
commit, and by pgx on a failed commit). -/
def insertBulkData (dbe : DbEnv) (env : CoercionEnv) (data : List Record)
    (table : String) (u : List Nat) (primaryKey : List String) : BulkResult :=
  if data.isEmpty then
    ⟨none, false, [], [], 0, 0⟩
  else
    let columns := getColumns data
    let data1 := formatTimestamps env data columns
    let data2 := formatToBinaryData env data1 columns
    let tempTable := generateUniqueTempTableName table u
    match dbe.beginErr with
    | some e => ⟨some e, false, [], [], 0, 0⟩
    | none =>
      match dbe.createErr with
      | some e => ⟨some e, true, [], [], 1, 1⟩
      | none =>
        let s1 := [Stmt.createTemp tempTable table]
        match dbe.copyErr with
        | some e => ⟨some e, true, s1, [], 1, 1⟩
        | none =>
          let s2 := s1 ++ [Stmt.copyInto tempTable columns data2]
          match dbe.mergeErr with
          | some e => ⟨some e, true, s2, [], 1, 1⟩
          | none =>
            let s3 := s2 ++ [Stmt.execSql (insertStmt table columns tempTable primaryKey)]
            match dbe.commitErr with
            | some e => ⟨some e, true, s3, [], 1, 0⟩
            | none => ⟨none, true, s3, s3, 1, 0⟩

/-- Dynamic types with a dedicated case in the type switch of
`formatToBinaryData`; every other value hits the `default` branch. -/
def recognizedBinary : GoValue → Bool
  | GoValue.timeVal _ => true
  | GoValue.floatVal _ => true
  | GoValue.intVal _ => true
  | GoValue.boolVal _ => true
  | GoValue.strVal _ => true
  | _ => false

/-- Whether a value is one of the tagged `pgtype` wire
representations. -/
def isPgTagged : GoValue → Bool
  | GoValue.pgTimestamptz _ _ => true
  | GoValue.pgFloat8 _ _ => true
  | GoValue.pgInt4 _ _ => true
  | GoValue.pgBool _ _ => true
  | GoValue.pgText _ _ => true
  | GoValue.pgNumeric _ _ => true
  | _ => false

/-- The `Status` tag of a tagged wire value (`none` for plain
values). -/
def pgPresentTag : GoValue → Option Bool
  | GoValue.pgTimestamptz _ p => some p
  | GoValue.pgFloat8 _ p => some p
  | GoValue.pgInt4 _ p => some p
  | GoValue.pgBool _ p => some p
  | GoValue.pgText _ p => some p
  | GoValue.pgNumeric _ p => some p
  | _ => none

/-- Dynamic types with a dedicated branch in `formatTimestamps`
(`time.Time` and `string`); every other value is copied unchanged. -/
def isTimeOrString : GoValue → Bool
  | GoValue.timeVal _ => true
  | GoValue.strVal _ => true
  | _ => false

/-- Database environment in which every pgx call succeeds. -/
def allOkDb : DbEnv :=
  ⟨none, none, none, none, none⟩

/-- Concrete coercion environment for witnesses: both parsers always
fail, formatting returns the empty string. -/
def env0 : CoercionEnv :=
  ⟨fun _ => none, fun _ => "", fun _ => none⟩

/-- Database environment whose staging-table creation fails. -/
def dbEnvCreateFail : DbEnv :=
  ⟨none, some "boom", none, none, none⟩

/-- Concrete one-field record for witnesses. -/
def rec1 : Record :=
  [("a", GoValue.intVal 1)]

/-- Concrete record whose `"time"` field holds an unparseable
string. -/
def recT : Record :=
  [("time", GoValue.strVal "bad"), ("a", GoValue.boolVal true)]

/-- Concrete 16-byte UUID value: all zero bytes. -/
def u16a : List Nat :=
  List.replicate 16 0

/-- Concrete 16-byte UUID value differing from `u16a` in its first
byte. -/
def u16b : List Nat :=
  1 :: List.replicate 15 0

theorem buildUpdate_foldl_eq (primaryKey : List String) (columns : List String)
    (acc : List String) :
    columns.foldl
      (fun acc col =>
        if !(contains primaryKey col) then acc ++ [col ++ " = EXCLUDED." ++ col]
        else acc)
      acc =
    acc ++ ((columns.filter (fun c => !(contains primaryKey c))).map
      (fun c => c ++ " = EXCLUDED." ++ c)) := by
  induction columns generalizing acc with
  | nil => simp
  | cons c cs ih =>
    rw [List.foldl_cons, ih, List.filter_cons]
    cases h : contains primaryKey c with
    | true => simp [h]
    | false => simp [h]

/-- C2: the merge statement built by `InsertBulkData` is exactly
`INSERT INTO <target> (<columns>) SELECT DISTINCT <columns> FROM
<staging> ON CONFLICT (<pk>) DO UPDATE SET ...`, where the SET clause
holds one `col = EXCLUDED.col` assignment for exactly the columns not
in the primary key, in column order, and none for primary-key
columns. -/
theorem insertStmt_shape (table tempTable : String) (columns primaryKey : List String) :
    insertStmt table columns tempTable primaryKey =
      "INSERT INTO " ++ table ++ " (" ++ String.intercalate ", " columns ++
        ") SELECT DISTINCT " ++ String.intercalate ", " columns ++ " FROM " ++ tempTable ++
        " ON CONFLICT (" ++ String.intercalate ", " primaryKey ++ ") DO UPDATE SET " ++
        String.intercalate ", "
          ((columns.filter (fun c => !(contains primaryKey c))).map
            (fun c => c ++ " = EXCLUDED." ++ c)) ∧
    buildUpdateValuesWithExcluded columns primaryKey =
      String.intercalate ", "
        ((columns.filter (fun c => !(contains primaryKey c))).map
          (fun c => c ++ " = EXCLUDED." ++ c)) := by
  have h := buildUpdate_foldl_eq primaryKey columns []
  constructor
  · unfold insertStmt buildUpdateValuesWithExcluded
    rw [h]
    simp
  · unfold buildUpdateValuesWithExcluded
    rw [h]
    simp

/-- C8: calling `InsertBulkData` with an empty record sequence returns
success immediately and performs no side effects: no transaction is
begun, no statement is executed inside a transaction, nothing becomes
durable, and no rollback is issued. -/
theorem insertBulkData_empty (dbe : DbEnv) (env : CoercionEnv) (table : String)
    (u : List Nat) (primaryKey : List String) :
    insertBulkData dbe env [] table u primaryKey =
      { ret := none, beganTx := false, stmtsInTx := [], committedStmts := [],
        rollbackCalls := 0, rollbackEffects := 0 } :=
  rfl

/-- C1: once `Pool.Begin` has succeeded, every error outcome returns
the failing step's error with a rollback attempted before the call
returns and nothing made durable; on success the deferred rollback
attempt has no effect (the transaction is already committed) and the
staged statements become durable. -/
theorem insertBulkData_atomic (dbe : DbEnv) (env : CoercionEnv)
    (data : List Record) (table : String) (u : List Nat) (primaryKey : List String)
    (hne : data ≠ []) (hb : dbe.beginErr = none) :
    ((insertBulkData dbe env data table u primaryKey).ret.isSome = true →
      (insertBulkData dbe env data table u primaryKey).rollbackCalls = 1 ∧
      (insertBulkData dbe env data table u primaryKey).committedStmts = []) ∧
    ((insertBulkData dbe env data table u primaryKey).ret = none →
      (insertBulkData dbe env data table u primaryKey).rollbackEffects = 0 ∧
      (insertBulkData dbe env data table u primaryKey).committedStmts =
        (insertBulkData dbe env data table u primaryKey).stmtsInTx) ∧
    (∀ e, dbe.createErr = some e →
      (insertBulkData dbe env data table u primaryKey).ret = some e) ∧
    (∀ e, dbe.createErr = none → dbe.copyErr = some e →
      (insertBulkData dbe env data table u primaryKey).ret = some e) ∧
    (∀ e, dbe.createErr = none → dbe.copyErr = none → dbe.mergeErr = some e →
      (insertBulkData dbe env data table u primaryKey).ret = some e) ∧
    (∀ e, dbe.createErr = none → dbe.copyErr = none → dbe.mergeErr = none →
      dbe.commitErr = some e →
      (insertBulkData dbe env data table u primaryKey).ret = some e) := by
  cases data with
  | nil => exact absurd rfl hne
  | cons d ds =>
    cases hc : dbe.createErr <;> cases hcp : dbe.copyErr <;>
      cases hm : dbe.mergeErr <;> cases hcm : dbe.commitErr <;>
      simp [insertBulkData, hb, hc, hcp, hm, hcm]

/-- Witness for `insertBulkData_atomic` at a failing staging-table
creation. -/
theorem insertBulkData_atomic_witness :
    (insertBulkData dbEnvCreateFail env0 [rec1] "t" [] ["a"]).ret = some "boom" ∧
    (insertBulkData dbEnvCreateFail env0 [rec1] "t" [] ["a"]).rollbackCalls = 1 ∧
    (insertBulkData dbEnvCreateFail env0 [rec1] "t" [] ["a"]).committedStmts = [] := by
  have h := insertBulkData_atomic dbEnvCreateFail env0 [rec1] "t" [] ["a"]
    (by simp) rfl
  have hret := h.2.2.1 "boom" rfl
  have hro := h.1 (by rw [hret]; rfl)
  exact ⟨hret, hro.1, hro.2⟩

/-- C3: the main coercion pass rebuilds every record over the column
order and maps each value by its dynamic type: a timestamp becomes a
timestamptz tagged present, a float becomes a float8 tagged present,
an integer is wrapped to a 32-bit integer, a boolean becomes a tagged
present boolean, a string outside the `"time"` column becomes tagged
present text, and every unrecognized value passes through
unchanged. -/
theorem formatToBinaryData_typed (env : CoercionEnv) (data : List Record)
    (cols : List String) :
    formatToBinaryData env data cols = data.map (formatToBinaryRow env cols) ∧
    (∀ row, formatToBinaryRow env cols row =
      cols.filterMap (fun col =>
        match formatToBinaryValue env col (lookupD row col) with
        | CoerceResult.keep w => some (col, w)
        | CoerceResult.skipLogged => none)) ∧
    (∀ col t, formatToBinaryValue env col (GoValue.timeVal t) =
      CoerceResult.keep (GoValue.pgTimestamptz t true)) ∧
    (∀ col f, formatToBinaryValue env col (GoValue.floatVal f) =
      CoerceResult.keep (GoValue.pgFloat8 f true)) ∧
    (∀ col n, formatToBinaryValue env col (GoValue.intVal n) =
      CoerceResult.keep (GoValue.int32Val (toInt32 n))) ∧
    (∀ col b, formatToBinaryValue env col (GoValue.boolVal b) =
      CoerceResult.keep (GoValue.pgBool b true)) ∧
    (∀ col s, col ≠ "time" → formatToBinaryValue env col (GoValue.strVal s) =
      CoerceResult.keep (GoValue.pgText s true)) ∧
    (∀ col v, recognizedBinary v = false →
      formatToBinaryValue env col v = CoerceResult.keep v) := by
  refine ⟨rfl, fun _ => rfl, fun _ _ => rfl, fun _ _ => rfl, fun _ _ => rfl,
    fun _ _ => rfl, ?_, ?_⟩
  · intro col s h
    simp [formatToBinaryValue, h]
  · intro col v h
    cases v <;> simp_all [formatToBinaryValue, recognizedBinary]

/-- Witness for `formatToBinaryData_typed` at a non-time string
column. -/
theorem formatToBinaryData_typed_witness :
    formatToBinaryValue env0 "price" (GoValue.strVal "x") =
      CoerceResult.keep (GoValue.pgText "x" true) :=
  (formatToBinaryData_typed env0 [] []).2.2.2.2.2.2.1 "price" "x" (by decide)

/-- C4 counterexample: coercing the record `{"a": 5}` (a Go `int`)
yields the plain native `int32` value `5`, which carries no
present/absent tag, so not every output value of the main coercion
pass is a tagged value. -/
theorem formatToBinary_untagged_int :
    formatToBinaryData env0 [[("a", GoValue.intVal 5)]] ["a"] =
      [[("a", GoValue.int32Val 5)]] ∧
    isPgTagged (GoValue.int32Val 5) = false := by
  decide

/-- C4 amended: every output value produced from a recognized input
type other than integer carries an explicit present tag; integers
become untagged native 32-bit integers, unrecognized values pass
through unchanged, and the pass never produces an absent tag — a field
whose coercion fails is omitted from the record instead. -/
theorem formatToBinary_tagging (env : CoercionEnv) (col : String) :
    (∀ v w, recognizedBinary v = true →
      formatToBinaryValue env col v = CoerceResult.keep w →
      pgPresentTag w = some true ∨
        (∃ n, v = GoValue.intVal n ∧ w = GoValue.int32Val (toInt32 n))) ∧
    (∀ v, recognizedBinary v = false →
      formatToBinaryValue env col v = CoerceResult.keep v) := by
  constructor
  · intro v w hrec hkeep
    cases v with
    | timeVal t =>
      simp only [formatToBinaryValue, CoerceResult.keep.injEq] at hkeep
      subst hkeep; left; rfl
    | floatVal f =>
      simp only [formatToBinaryValue, CoerceResult.keep.injEq] at hkeep
      subst hkeep; left; rfl
    | intVal n =>
      simp only [formatToBinaryValue, CoerceResult.keep.injEq] at hkeep
      subst hkeep; right; exact ⟨n, rfl, rfl⟩
    | boolVal b =>
      simp only [formatToBinaryValue, CoerceResult.keep.injEq] at hkeep
      subst hkeep; left; rfl
    | strVal s =>
      by_cases hc : col = "time"
      · subst hc
        simp only [formatToBinaryValue, beq_self_eq_true, if_true] at hkeep
        cases hp : env.parseRFC3339 s with
        | some t =>
          rw [hp] at hkeep
          simp only [CoerceResult.keep.injEq] at hkeep
          subst hkeep; left; rfl
        | none =>
          rw [hp] at hkeep
          exact absurd hkeep (by simp)
      · have hcb : (col == "time") = false := by simpa using hc
        simp only [formatToBinaryValue, hcb] at hkeep
        simp at hkeep
        subst hkeep; left; rfl
    | _ => simp_all [recognizedBinary]
  · intro v h
    cases v <;> simp_all [formatToBinaryValue, recognizedBinary]

/-- Witness for `formatToBinary_tagging` at a boolean input. -/
theorem formatToBinary_tagging_witness :
    pgPresentTag (GoValue.pgBool true true) = some true ∨
      (∃ n, GoValue.boolVal true = GoValue.intVal n ∧
        GoValue.pgBool true true = GoValue.int32Val (toInt32 n)) :=
  (formatToBinary_tagging env0 "c").1 (GoValue.boolVal true)
    (GoValue.pgBool true true) (by decide) (by decide)

/-- C7: the stringify pass rebuilds every record over the column order
and maps each value by its dynamic type: a timestamp becomes its
RFC3339 string; a string that parses as a float becomes that float; a
string that does not parse, and every value of any other type, is kept
unchanged. -/
theorem formatTimestamps_typed (env : CoercionEnv) (data : List Record)
    (cols : List String) :
    formatTimestamps env data cols = data.map (fun row =>
      cols.map (fun col => (col, formatTimestampsValue env (lookupD row col)))) ∧
    (∀ t, formatTimestampsValue env (GoValue.timeVal t) =
      GoValue.strVal (env.formatRFC3339 t)) ∧
    (∀ s f, env.parseFloat s = some f →
      formatTimestampsValue env (GoValue.strVal s) = GoValue.floatVal f) ∧
    (∀ s, env.parseFloat s = none →
      formatTimestampsValue env (GoValue.strVal s) = GoValue.strVal s) ∧
    (∀ v, isTimeOrString v = false → formatTimestampsValue env v = v) := by
  refine ⟨rfl, fun _ => rfl, ?_, ?_, ?_⟩
  · intro s f h
    simp [formatTimestampsValue, h]
  · intro s h
    simp [formatTimestampsValue, h]
  · intro v h
    cases v <;> simp_all [formatTimestampsValue, isTimeOrString]

/-- Witness for `formatTimestamps_typed` at an unparseable string. -/
theorem formatTimestamps_typed_witness :
    formatTimestampsValue env0 (GoValue.strVal "abc") = GoValue.strVal "abc" :=
  (formatTimestamps_typed env0 [] []).2.2.2.1 "abc" rfl

theorem valuesIter_state (data : List Record) (cols : List String) (k : Nat) :
    valuesIter (newMapCopyFromSource data cols) k =
      ⟨data, min k data.length, cols⟩ := by
  induction k with
  | zero => simp [valuesIter, newMapCopyFromSource]
  | succ k ih =>
    rw [valuesIter, ih]
    by_cases h : min k data.length < data.length
    · have hm : min (k + 1) data.length = min k data.length + 1 := by omega
      simp [MapCopyFromSource.values, MapCopyFromSource.next, h, hm]
    · have hm : min (k + 1) data.length = min k data.length := by omega
      simp [MapCopyFromSource.values, MapCopyFromSource.next, h, hm]

/-- C5: for a fresh cursor over n records, `Next` after k `Values`
calls is true exactly when rows remain (and consumes nothing — it is a
pure read of the state); the call of `Values` at position i < n
returns record i's values in exactly the supplied column order and
advances; every `Values` call at or beyond position n signals
end-of-data (`io.EOF`), so the exhausted cursor cannot be restarted;
and `Err` always returns nil. -/
theorem mapCopyFromSource_cursor (data : List Record) (cols : List String) :
    (∀ k, (valuesIter (newMapCopyFromSource data cols) k).next =
      decide (k < data.length)) ∧
    (∀ i, i < data.length →
      ((valuesIter (newMapCopyFromSource data cols) i).values).1 =
        some (cols.map (fun col => lookupD (data.getD i []) col)) ∧
      ((valuesIter (newMapCopyFromSource data cols) i).values).2.pos = i + 1) ∧
    (∀ k, data.length ≤ k →
      ((valuesIter (newMapCopyFromSource data cols) k).values).1 = none) ∧
    (∀ k, (valuesIter (newMapCopyFromSource data cols) k).errResult = none) := by
  refine ⟨?_, ?_, ?_, fun _ => rfl⟩
  · intro k
    rw [valuesIter_state]
    simp only [MapCopyFromSource.next]
    exact decide_eq_decide.mpr (by constructor <;> (intro h; omega))
  · intro i hi
    rw [valuesIter_state]
    have hm : min i data.length = i := by omega
    constructor <;> simp [MapCopyFromSource.values, MapCopyFromSource.next, hm, hi]
  · intro k hk
    rw [valuesIter_state]
    have hm : ¬min k data.length < data.length := by omega
    simp [MapCopyFromSource.values, MapCopyFromSource.next, hm]

/-- Witness for `mapCopyFromSource_cursor` on a one-record source. -/
theorem mapCopyFromSource_cursor_witness :
    ((valuesIter (newMapCopyFromSource [rec1] ["a"]) 0).values).1 =
      some [GoValue.intVal 1] ∧
    ((valuesIter (newMapCopyFromSource [rec1] ["a"]) 1).values).1 = none := by
  have h := mapCopyFromSource_cursor [rec1] ["a"]
  exact ⟨((h.2.1 0 (by decide)).1).trans (by decide), h.2.2.1 1 (by decide)⟩

/-- C6: when the `"time"` column of a record holds a string that fails
RFC3339 parsing, the coercion pass logs the failure (the skip branch
is counted once per failing field), omits that field from the coerced
record, still keeps every other successfully coerced column, and the
failure is not fatal: with every database step succeeding,
`InsertBulkData` returns success. -/
theorem timeParseFailure_nonfatal (env : CoercionEnv) (row : Record)
    (cols : List String) (s : String)
    (hv : lookupD row "time" = GoValue.strVal s)
    (hp : env.parseRFC3339 s = none) :
    hasKey (formatToBinaryRow env cols row) "time" = false ∧
    ("time" ∈ cols → 1 ≤ binaryRowLogCount env cols row) ∧
    (∀ col, col ∈ cols → col ≠ "time" →
      ∀ w, formatToBinaryValue env col (lookupD row col) = CoerceResult.keep w →
        (col, w) ∈ formatToBinaryRow env cols row) ∧
    (∀ data : List Record, ∀ table : String, ∀ u : List Nat, ∀ pk : List String,
      (insertBulkData allOkDb env data table u pk).ret = none) := by
  have hskip : formatToBinaryValue env "time" (lookupD row "time") =
      CoerceResult.skipLogged := by
    rw [hv]
    simp [formatToBinaryValue, hp]
  refine ⟨?_, ?_, ?_, ?_⟩
  · unfold hasKey
    rw [List.any_eq_false]
    intro e he
    unfold formatToBinaryRow at he
    rw [List.mem_filterMap] at he
    obtain ⟨col, hcol, hm⟩ := he
    by_cases hct : col = "time"
    · subst hct
      rw [hskip] at hm
      simp at hm
    · cases hk : formatToBinaryValue env col (lookupD row col) with
      | keep w =>
        rw [hk] at hm
        simp only [Option.some.injEq] at hm
        subst hm
        simpa using hct
      | skipLogged =>
        rw [hk] at hm
        simp at hm
  · intro ht
    unfold binaryRowLogCount
    have hmem : "time" ∈ cols.filter (fun col =>
        formatToBinaryValue env col (lookupD row col) == CoerceResult.skipLogged) := by
      rw [List.mem_filter]
      exact ⟨ht, by rw [hskip]; rfl⟩
    have hpos := List.length_pos.mpr (List.ne_nil_of_mem hmem)
    omega
  · intro col hcol hct w hw
    unfold formatToBinaryRow
    rw [List.mem_filterMap]
    exact ⟨col, hcol, by rw [hw]⟩
  · intro data table u pk
    cases data with
    | nil => rfl
    | cons d ds => rfl

/-- Witness for `timeParseFailure_nonfatal` on a concrete record. -/
theorem timeParseFailure_nonfatal_witness :
    hasKey (formatToBinaryRow env0 ["time", "a"] recT) "time" = false ∧
    1 ≤ binaryRowLogCount env0 ["time", "a"] recT ∧
    (insertBulkData allOkDb env0 [recT] "t" [] ["a"]).ret = none := by
  have h := timeParseFailure_nonfatal env0 recT ["time", "a"] "bad" rfl rfl
  exact ⟨h.1, h.2.1 (by decide), h.2.2.2 [recT] "t" [] ["a"]⟩

theorem hexDigitChar_fin_inj :
    ∀ a b : Fin 16, hexDigitChar a.val = hexDigitChar b.val → a = b := by
  decide

theorem hexDigitChar_fin_ne_hyphen : ∀ a : Fin 16, hexDigitChar a.val ≠ '-' := by
  decide

theorem hexDigitChar_inj (a b : Nat) (ha : a < 16) (hb : b < 16)
    (h : hexDigitChar a = hexDigitChar b) : a = b := by
  have h2 := hexDigitChar_fin_inj ⟨a, ha⟩ ⟨b, hb⟩ h
  simpa using congrArg Fin.val h2

theorem hexDigitChar_ne_hyphen (n : Nat) (h : n < 16) : hexDigitChar n ≠ '-' :=
  hexDigitChar_fin_ne_hyphen ⟨n, h⟩

theorem byteToHex_inj (a b : Nat) (ha : a < 256) (hb : b < 256)
    (h : byteToHex a = byteToHex b) : a = b := by
  unfold byteToHex at h
  simp only [List.cons.injEq, and_true] at h
  obtain ⟨h1, h2⟩ := h
  have e1 := hexDigitChar_inj (a / 16) (b / 16) (by omega) (by omega) h1
  have e2 := hexDigitChar_inj (a % 16) (b % 16) (by omega) (by omega) h2
  omega

theorem bytesToHex_ne_hyphen (bs : List Nat) (h : ∀ b ∈ bs, b < 256) :
    ∀ c ∈ bytesToHex bs, c ≠ '-' := by
  intro c hc
  unfold bytesToHex at hc
  rw [List.mem_flatten] at hc
  obtain ⟨l, hl, hcl⟩ := hc
  rw [List.mem_map] at hl
  obtain ⟨b, hb, rfl⟩ := hl
  have hb2 := h b hb
  simp only [byteToHex, List.mem_cons, List.mem_singleton] at hcl
  rcases hcl with rfl | rfl | hfalse
  · exact hexDigitChar_ne_hyphen (b / 16) (by omega)
  · exact hexDigitChar_ne_hyphen (b % 16) (by omega)
  · simp at hfalse

theorem bytesToHex_append (xs ys : List Nat) :
    bytesToHex (xs ++ ys) = bytesToHex xs ++ bytesToHex ys := by
  simp [bytesToHex]

theorem bytesToHex_inj : ∀ xs ys : List Nat, (∀ b ∈ xs, b < 256) →
    (∀ b ∈ ys, b < 256) → xs.length = ys.length →
    bytesToHex xs = bytesToHex ys → xs = ys := by
  intro xs
  induction xs with
  | nil =>
    intro ys _ _ hlen _
    cases ys with
    | nil => rfl
    | cons y ys => simp at hlen
  | cons x xs ih =>
    intro ys hx hy hlen h
    cases ys with
    | nil => simp at hlen
    | cons y ys =>
      simp only [bytesToHex, List.map_cons, List.flatten_cons, byteToHex,
        List.cons_append, List.nil_append, List.cons.injEq] at h
      obtain ⟨h1, h2, h3⟩ := h
      have hx0 := hx x (by simp)
      have hy0 := hy y (by simp)
      have hxy : x = y := by
        have e1 := hexDigitChar_inj _ _ (by omega) (by omega) h1
        have e2 := hexDigitChar_inj _ _ (by omega) (by omega) h2
        omega
      subst hxy
      have htail : xs = ys :=
        ih ys (fun b hb => hx b (by simp [hb])) (fun b hb => hy b (by simp [hb]))
          (by simpa using hlen) h3
      rw [htail]

theorem replaceAllHyphens_uuidString (u : List Nat) (h : ∀ b ∈ u, b < 256) :
    replaceAllHyphens (uuidString u) = String.mk (bytesToHex u) := by
  have hfilter : ∀ (l : List Char), (∀ c ∈ l, c ≠ '-') →
      l.filter (fun c => c != '-') = l := fun l hl =>
    List.filter_eq_self.mpr (fun c hc => by simpa using hl c hc)
  have h4 : ∀ b ∈ u.take 4, b < 256 := fun b hb => h b (List.take_subset _ _ hb)
  have h42 : ∀ b ∈ (u.drop 4).take 2, b < 256 := fun b hb =>
    h b (List.drop_subset _ _ (List.take_subset _ _ hb))
  have h62 : ∀ b ∈ (u.drop 6).take 2, b < 256 := fun b hb =>
    h b (List.drop_subset _ _ (List.take_subset _ _ hb))
  have h82 : ∀ b ∈ (u.drop 8).take 2, b < 256 := fun b hb =>
    h b (List.drop_subset _ _ (List.take_subset _ _ hb))
  have h10 : ∀ b ∈ u.drop 10, b < 256 := fun b hb => h b (List.drop_subset _ _ hb)
  have hsplit : u.take 4 ++ ((u.drop 4).take 2 ++ ((u.drop 6).take 2 ++
      ((u.drop 8).take 2 ++ u.drop 10))) = u := by
    have e6 : (u.drop 4).drop 2 = u.drop 6 := by simp [List.drop_drop]
    have e8 : (u.drop 6).drop 2 = u.drop 8 := by simp [List.drop_drop]
    have e10 : (u.drop 8).drop 2 = u.drop 10 := by simp [List.drop_drop]
    rw [← e10, List.take_append_drop, ← e8, List.take_append_drop, ← e6,
      List.take_append_drop, List.take_append_drop]
  unfold replaceAllHyphens uuidString
  congr 1
  show (bytesToHex (u.take 4) ++ ['-'] ++ bytesToHex ((u.drop 4).take 2) ++ ['-'] ++
      bytesToHex ((u.drop 6).take 2) ++ ['-'] ++ bytesToHex ((u.drop 8).take 2) ++
      ['-'] ++ bytesToHex (u.drop 10)).filter (fun c => c != '-') = bytesToHex u
  simp only [List.filter_append]
  rw [hfilter _ (bytesToHex_ne_hyphen _ h4), hfilter _ (bytesToHex_ne_hyphen _ h42),
    hfilter _ (bytesToHex_ne_hyphen _ h62), hfilter _ (bytesToHex_ne_hyphen _ h82),
    hfilter _ (bytesToHex_ne_hyphen _ h10)]
  have hdash : (['-'] : List Char).filter (fun c => c != '-') = [] := rfl
  rw [hdash]
  simp only [List.append_nil, List.append_assoc]
  rw [← bytesToHex_append, ← bytesToHex_append, ← bytesToHex_append, ← bytesToHex_append]
  exact congrArg bytesToHex hsplit

/-- C9: the staging-table name is exactly `temp_<table>_<id>` where
`<id>` is the drawn UUID's 32-character lowercase hex form with all
hyphens removed; the random part contains no hyphen; and two calls on
the same target table that draw distinct UUID values produce distinct
staging-table names. -/
theorem generateUniqueTempTableName_spec (table : String) (u v : List Nat)
    (hu : ∀ b ∈ u, b < 256) (hvb : ∀ b ∈ v, b < 256)
    (hul : u.length = 16) (hvl : v.length = 16) (hne : u ≠ v) :
    generateUniqueTempTableName table u =
      "temp_" ++ table ++ "_" ++ String.mk (bytesToHex u) ∧
    (∀ c ∈ (replaceAllHyphens (uuidString u)).data, c ≠ '-') ∧
    generateUniqueTempTableName table u ≠ generateUniqueTempTableName table v := by
  refine ⟨?_, ?_, ?_⟩
  · unfold generateUniqueTempTableName
    rw [replaceAllHyphens_uuidString u hu]
  · rw [replaceAllHyphens_uuidString u hu]
    exact bytesToHex_ne_hyphen u hu
  · intro heq
    unfold generateUniqueTempTableName at heq
    rw [replaceAllHyphens_uuidString u hu, replaceAllHyphens_uuidString v hvb] at heq
    have hdata := congrArg String.data heq
    simp only [String.data_append] at hdata
    have hlists := List.append_cancel_left hdata
    exact hne (bytesToHex_inj u v hu hvb (by rw [hul, hvl]) hlists)

/-- Witness for `generateUniqueTempTableName_spec` at two concrete
UUID values. -/
theorem generateUniqueTempTableName_spec_witness :
    generateUniqueTempTableName "t" u16a ≠ generateUniqueTempTableName "t" u16b :=
  (generateUniqueTempTableName_spec "t" u16a u16b (by decide) (by decide)
    (by decide) (by decide) (by decide)).2.2

/-- C10 counterexample: a numeric wire value tagged `Present` whose
decimal conversion fails (as happens for a NaN numeric: `v.Value()`
yields the string "NaN", which `decimal.NewFromString` rejects) is
omitted from the returned record by the `continue` in the error branch
instead of being narrowed to a float — so not every present-tagged
value of a handled type is unwrapped into the record. -/
theorem nativePass_presentNumeric_dropped :
    formataToNativeType [[("a", GoValue.pgNumeric none true)]] = [[]] ∧
    hasKey ((formataToNativeType [[("a", GoValue.pgNumeric none true)]]).getD 0 [])
      "a" = false := by
  decide

/-- C10 amended: the reverse pass builds each returned record by
keeping exactly the fields the loop assigns: untagged values pass
through unchanged; a column whose wire value is tagged non-present is
omitted (the key is absent, not mapped to a null); present-tagged
values of the five plain handled types are unwrapped to plain dynamic
values; and a present numeric is narrowed to a double-precision float
when its decimal conversion succeeds, and omitted when the conversion
fails. -/
theorem formataToNativeType_spec (data : List Record) :
    (∀ v, isPgTagged v = false → nativeValue v = some v) ∧
    formataToNativeType data = data.map (fun row =>
      row.filterMap (fun e => (nativeValue e.2).map (fun w => (e.1, w)))) ∧
    (∀ t, nativeValue (GoValue.pgTimestamptz t true) = some (GoValue.timeVal t)) ∧
    (∀ t, nativeValue (GoValue.pgTimestamptz t false) = none) ∧
    (∀ f, nativeValue (GoValue.pgFloat8 f true) = some (GoValue.floatVal f)) ∧
    (∀ f, nativeValue (GoValue.pgFloat8 f false) = none) ∧
    (∀ n, nativeValue (GoValue.pgInt4 n true) = some (GoValue.intVal n)) ∧
    (∀ n, nativeValue (GoValue.pgInt4 n false) = none) ∧
    (∀ b, nativeValue (GoValue.pgBool b true) = some (GoValue.boolVal b)) ∧
    (∀ b, nativeValue (GoValue.pgBool b false) = none) ∧
    (∀ s, nativeValue (GoValue.pgText s true) = some (GoValue.strVal s)) ∧
    (∀ s, nativeValue (GoValue.pgText s false) = none) ∧
    (∀ f, nativeValue (GoValue.pgNumeric (some f) true) = some (GoValue.floatVal f)) ∧
    nativeValue (GoValue.pgNumeric none true) = none ∧
    (∀ c, nativeValue (GoValue.pgNumeric c false) = none) := by
  refine ⟨?_, rfl, fun _ => rfl, fun _ => rfl, fun _ => rfl, fun _ => rfl,
    fun _ => rfl, fun _ => rfl, fun _ => rfl, fun _ => rfl, fun _ => rfl,
    fun _ => rfl, fun _ => rfl, rfl, fun _ => rfl⟩
  intro v h
  cases v <;> simp_all [nativeValue, isPgTagged]

/-- Witness for `formataToNativeType_spec` at an untagged value. -/
theorem formataToNativeType_spec_witness :
    nativeValue (GoValue.strVal "x") = some (GoValue.strVal "x") :=
  (formataToNativeType_spec []).1 (GoValue.strVal "x") (by decide)

end PgConnect
